import Mathlib

/-!
Verification of `scripts/generate_elaboration_report.py`.

The script audits a document-processing pipeline: it walks a source tree and
an output tree, matches each source file to output artifacts by normalized
relative directory plus basename, resolves a status by fixed precedence, and
assembles report rows.

We embed the pure logic of the script shallowly.  Strings are Lean `String`
(logically a list of `Char`); the platform path separator `os.sep` is the
POSIX `'/'`.  Python `str.lower` is modelled per-character by `Char.toLower`
(all strings the script compares against the lowered values are ASCII).
Filesystem traversal (`os.walk`, `os.path.relpath`, `os.path.getmtime`) is an
external collaborator: traversals are modelled as the list of files they
yield, and the fallible modification-time read as an `Option` parameter.
-/

namespace ElabReport

/-- Per-character lowering, modelling Python `str.lower` on the ASCII
strings this script compares. -/
def lowerChars (cs : List Char) : List Char := cs.map Char.toLower

/-- Python `str.lower` at the `String` level. -/
def lowerStr (s : String) : String := ⟨lowerChars s.data⟩

/-- Index of the last occurrence of `c`, modelling Python `str.rfind`
(`none` plays the role of `-1`). -/
def lastIdx? (c : Char) : List Char → Option Nat
  | [] => none
  | a :: t =>
    match lastIdx? c t with
    | some i => some (i + 1)
    | none => if a = c then some 0 else none

/-- Python `str.split('/')`: the list of (possibly empty) runs between
separators.  `split "" = [""]`. -/
def splitSlash : List Char → List (List Char)
  | [] => [[]]
  | c :: rest =>
    if c = '/' then [] :: splitSlash rest
    else
      match splitSlash rest with
      | [] => [[c]]
      | s :: ss => (c :: s) :: ss

/-- Python `'/'.join`. -/
def joinSlash : List (List Char) → List Char
  | [] => []
  | [l] => l
  | l :: l2 :: ls => l ++ '/' :: joinSlash (l2 :: ls)

/-- Drop trailing `'/'` characters, modelling Python `str.rstrip('/')`. -/
def rstripSlash (cs : List Char) : List Char :=
  (cs.reverse.dropWhile (fun c => c = '/')).reverse

/-- Model of `posixpath.dirname`: the prefix up to the last separator, with trailing
separators stripped unless the head is empty or consists only of
separators. -/
def dirnameChars (cs : List Char) : List Char :=
  let i : Nat :=
    match lastIdx? '/' cs with
    | some j => j + 1
    | none => 0
  let head := cs.take i
  if !head.isEmpty && !(head.all (fun c => c = '/')) then rstripSlash head
  else head

/-- Model of `os.path.dirname` at the `String` level. -/
def dirname (s : String) : String := ⟨dirnameChars s.data⟩

/-- Model of `posixpath.basename`: everything after the last separator. -/
def basenameChars (cs : List Char) : List Char :=
  cs.drop
    (match lastIdx? '/' cs with
     | some j => j + 1
     | none => 0)

/-- Model of `os.path.basename` at the `String` level. -/
def basename (s : String) : String := ⟨basenameChars s.data⟩

/-- Model of `posixpath.splitext`: split at the last dot, provided it lies after the
last separator and some character of the filename before it is not a dot
(so a leading-dots name like `".bashrc"` has no extension). -/
def splitextChars (cs : List Char) : List Char × List Char :=
  let fstart : Nat :=
    match lastIdx? '/' cs with
    | some j => j + 1
    | none => 0
  match lastIdx? '.' cs with
  | none => (cs, [])
  | some d =>
    if fstart ≤ d ∧ ((cs.drop fstart).take (d - fstart)).any (fun ch => ch ≠ '.') then
      (cs.take d, cs.drop d)
    else (cs, [])

/-- Model of `os.path.splitext` at the `String` level. -/
def splitext (s : String) : String × String :=
  ((⟨(splitextChars s.data).1⟩ : String), (⟨(splitextChars s.data).2⟩ : String))

/-- The wrapper-segment stop set `SKIP_LEADING` of
`find_matches_for_source` (identical to the `skip` set of
`generate_report`). -/
def SKIP_LEADING : List String :=
  ["ftp", "data", "source", "files", "input", "in", "out", "output", "tmp"]

/-- The same set at the `List Char` level. -/
def skipChars : List (List Char) := SKIP_LEADING.map String.data

/-- Test `p.lower() in SKIP_LEADING` for a segment. -/
def isWrapper (seg : List Char) : Bool := skipChars.contains (lowerChars seg)

/-- The loop condition of `strip_leading`: `p and p.lower() not in
SKIP_LEADING`. -/
def keepSeg (seg : List Char) : Bool := !seg.isEmpty && !isWrapper seg

/-- Index of the first element satisfying `p`, modelling the Python
`for i, p in enumerate(...)` search. -/
def firstIdx? (p : α → Bool) : List α → Option Nat
  | [] => none
  | a :: t => if p a then some 0 else (firstIdx? p t).map (· + 1)

/-- The body of `strip_leading`: split on `os.sep`, keep non-empty parts,
return the joined suffix from the first non-wrapper segment, or `''` if
every segment is a wrapper. -/
def stripChars (cs : List Char) : List Char :=
  let parts := (splitSlash cs).filter (fun seg => !seg.isEmpty)
  match firstIdx? keepSeg parts with
  | some i => joinSlash (parts.drop i)
  | none => []

/-- The function `strip_leading` of `find_matches_for_source`, at the `String` level. -/
def strip_leading (path : String) : String := ⟨stripChars path.data⟩

/-- One record of the output index built by `scan_outputs` (the dict with
keys `full`, `rel`, `basename`, `ext`, `kind`, `mtime`). -/
structure OutputRecord where
  full : String
  rel : String
  basename : String
  ext : String
  kind : String
  mtime : String
deriving Repr, DecidableEq

/-- Model of `iso_mtime`: the `os.path.getmtime` + `datetime` formatting collaborator
is modelled as an optional pre-formatted timestamp; `none` models the
exception path, on which `iso_mtime` returns `''`. -/
def iso_mtime (mtimeResult : Option String) : String := mtimeResult.getD ""

/-- The record `scan_outputs` appends for one walked file: basename and
extension from `splitext(basename(f))`, the extension lowered, and the kind
classified from the lowered extension. -/
def mkOutputRecord (full rel fname mtime : String) : OutputRecord :=
  let name := (splitext (basename fname)).1
  let ext := (splitext (basename fname)).2
  let kind :=
    if lowerStr ext = ".csv" then "csv"
    else if lowerStr ext = ".timeout" then "timeout"
    else if lowerStr ext = ".error" then "error"
    else "other"
  { full := full, rel := rel, basename := name, ext := lowerStr ext,
    kind := kind, mtime := mtime }

/-- One file yielded by the `os.walk(output_dir)` collaborator: the joined
absolute path, the path relative to the output root, the bare filename, and
the outcome of the modification-time read (`none` = exception). -/
structure WalkedFile where
  full : String
  rel : String
  fname : String
  mtimeResult : Option String
deriving Repr, DecidableEq

/-- Model of `scan_outputs`: index every walked file. -/
def scan_outputs (walked : List WalkedFile) : List OutputRecord :=
  walked.map (fun w => mkOutputRecord w.full w.rel w.fname (iso_mtime w.mtimeResult))

/-- Model of `find_matches_for_source`: keep the outputs whose wrapper-stripped
directory equals the wrapper-stripped source directory and whose basename
equals the source basename. -/
def find_matches_for_source (src_rel src_basename : String)
    (outputs : List OutputRecord) : List OutputRecord :=
  let src_dir := strip_leading (dirname src_rel)
  outputs.filter (fun out =>
    strip_leading (dirname out.rel) == src_dir && out.basename == src_basename)

/-- Model of `determine_status`: fixed precedence csv > timeout > error, else
NOT_ELABORATED.  (Python builds `set(match_kinds)` first; set membership
coincides with list membership.) -/
def determine_status (match_kinds : List String) : String :=
  if match_kinds.contains "csv" then "ELABORATED"
  else if match_kinds.contains "timeout" then "TIMEOUT"
  else if match_kinds.contains "error" then "ERROR"
  else "NOT_ELABORATED"

/-- One file yielded by the `os.walk(data_dir)` collaborator (for the
source tree there is no timestamp read). -/
structure SourceFile where
  full : String
  rel : String
  fname : String
deriving Repr, DecidableEq

/-- One assembled report row.  `source_path` holds the walked absolute path
(`os.path.abspath` on the already-rooted walk path is modelled as the
identity; no claim concerns it). -/
structure ReportRow where
  source_path : String
  relative_path : String
  basename : String
  category : String
  book_container : String
  status : String
  has_output : Bool
  num_outputs : Nat
  matched_outputs : String
  notes : String
deriving Repr, DecidableEq

/-- Python `'; '.join` of the match descriptions. -/
def joinSemicolon : List String → String
  | [] => ""
  | [s] => s
  | s :: rest => s ++ "; " ++ joinSemicolon rest

/-- The category/container index of `generate_report`: first index whose
segment is non-empty and not a wrapper, defaulting to `0` when the loop
finds none. -/
def categoryIdx (parts : List (List Char)) : Nat :=
  match firstIdx? keepSeg parts with
  | some i => i
  | none => 0

/-- The loop body of `generate_report` for one qualifying source file:
match, resolve status, derive category/container from the unfiltered split
of the relative path, and assemble the row. -/
def build_row (s : SourceFile) (outputs : List OutputRecord) : ReportRow :=
  let bn := (splitext (basename s.fname)).1
  let ms := find_matches_for_source s.rel bn outputs
  let match_descs := ms.map (fun m =>
    m.rel ++ " (" ++ m.kind ++ ", " ++ m.mtime ++ ")")
  let kinds := ms.map (fun m => m.kind)
  let num_outputs := ms.length
  let parts := splitSlash s.rel.data
  let idx := categoryIdx parts
  { source_path := s.full
    relative_path := s.rel
    basename := bn
    category := ⟨parts.getD idx []⟩
    book_container := ⟨parts.getD (idx + 1) []⟩
    status := determine_status kinds
    has_output := decide (num_outputs > 0)
    num_outputs := num_outputs
    matched_outputs := joinSemicolon match_descs
    notes := "" }

/-- The extension filter of `generate_report`: a source file is skipped iff
`not include_all and ext.lower() not in exts`. -/
def passesFilter (fname : String) (exts : List String) (include_all : Bool) : Bool :=
  include_all || exts.contains (lowerStr (splitext fname).2)

/-- The row list produced by `generate_report` (before CSV writing): filter
the walked source files by extension, build one row per survivor, and sort
by relative path when `sort_rows` is set (Python `list.sort` is a stable
sort, modelled by `List.mergeSort`). -/
def generate_report_rows (sources : List SourceFile) (outputs : List OutputRecord)
    (exts : List String) (include_all : Bool) (sort_rows : Bool) : List ReportRow :=
  let rows := (sources.filter (fun s => passesFilter s.fname exts include_all)).map
    (fun s => build_row s outputs)
  if sort_rows then
    rows.mergeSort (fun a b => a.relative_path ≤ b.relative_path)
  else rows

/-- The `total_sources` counter of `generate_report`: incremented exactly
once per source file passing the filter. -/
def total_sources (sources : List SourceFile) (exts : List String)
    (include_all : Bool) : Nat :=
  (sources.filter (fun s => passesFilter s.fname exts include_all)).length

/-! ### Helper lemmas -/

theorem firstIdx_drop (p : α → Bool) (l : List α) :
    (match firstIdx? p l with
     | some i => l.drop i
     | none => ([] : List α)) = l.dropWhile (fun a => !p a) := by
  induction l with
  | nil => rfl
  | cons a t ih =>
    by_cases h : p a = true
    · simp [firstIdx?, h, List.dropWhile_cons]
    · rw [Bool.not_eq_true] at h
      simp only [firstIdx?, h, Bool.false_eq_true, if_false, List.dropWhile_cons,
        Bool.not_false, if_true]
      rw [← ih]
      cases firstIdx? p t with
      | none => rfl
      | some i => rfl

theorem firstIdx_some (p : α → Bool) :
    ∀ (l : List α) (i : Nat), firstIdx? p l = some i →
      ∃ x xs, l.drop i = x :: xs ∧ p x = true := by
  intro l
  induction l with
  | nil => intro i h; simp [firstIdx?] at h
  | cons a t ih =>
    intro i h
    by_cases ha : p a = true
    · simp [firstIdx?, ha] at h
      exact ⟨a, t, by simp [← h], ha⟩
    · rw [Bool.not_eq_true] at ha
      simp only [firstIdx?, ha, Bool.false_eq_true, if_false] at h
      cases hfi : firstIdx? p t with
      | none => rw [hfi] at h; simp at h
      | some j =>
        rw [hfi] at h
        simp only [Option.map_some'] at h
        obtain ⟨x, xs, hx, hpx⟩ := ih j hfi
        injection h with h
        subst h
        exact ⟨x, xs, hx, hpx⟩

theorem dropWhile_congr_mem {p q : α → Bool} :
    ∀ (l : List α), (∀ x ∈ l, p x = q x) → l.dropWhile p = l.dropWhile q := by
  intro l
  induction l with
  | nil => intro _; rfl
  | cons a t ih =>
    intro h
    have ha := h a (by simp)
    rw [List.dropWhile_cons, List.dropWhile_cons, ha]
    by_cases hq : q a = true
    · simp only [hq, if_pos]
      exact ih (fun x hx => h x (by simp [hx]))
    · rw [Bool.not_eq_true] at hq
      simp [hq]

theorem dropWhile_cons_of_neg {p : α → Bool} {a : α} (l : List α) (h : p a = false) :
    (a :: l).dropWhile p = a :: l := by
  simp [List.dropWhile_cons, h]

theorem dropWhile_head_false {p : α → Bool} :
    ∀ {l : List α} {a : α} {t : List α}, l.dropWhile p = a :: t → p a = false := by
  intro l
  induction l with
  | nil => intro a t h; simp at h
  | cons b bt ih =>
    intro a t h
    rw [List.dropWhile_cons] at h
    by_cases hb : p b = true
    · rw [if_pos hb] at h; exact ih h
    · rw [Bool.not_eq_true] at hb
      rw [hb] at h
      simp only [Bool.false_eq_true, if_false, List.cons.injEq] at h
      exact h.1 ▸ hb

theorem mem_of_mem_dropWhile {p : α → Bool} :
    ∀ {l : List α} {a : α}, a ∈ l.dropWhile p → a ∈ l := by
  intro l
  induction l with
  | nil => intro a h; simp at h
  | cons b bt ih =>
    intro a h
    rw [List.dropWhile_cons] at h
    by_cases hb : p b = true
    · rw [if_pos hb] at h; exact List.mem_cons_of_mem _ (ih h)
    · rw [Bool.not_eq_true] at hb
      rw [hb] at h
      simpa using h

theorem dropWhile_eq_nil_iff_all {p : α → Bool} :
    ∀ {l : List α}, l.dropWhile p = [] ↔ l.all p := by
  intro l
  induction l with
  | nil => simp
  | cons b bt ih =>
    rw [List.dropWhile_cons]
    by_cases hb : p b = true
    · rw [if_pos hb, ih]
      simp [hb]
    · rw [Bool.not_eq_true] at hb
      simp [hb]

theorem splitSlash_ne_nil : ∀ (cs : List Char), splitSlash cs ≠ [] := by
  intro cs
  induction cs with
  | nil => simp [splitSlash]
  | cons c rest ih =>
    rw [splitSlash]
    by_cases hc : c = '/'
    · simp [hc]
    · simp only [hc, if_false]
      cases h : splitSlash rest with
      | nil => simp
      | cons s ss => simp

theorem no_slash_of_mem_splitSlash :
    ∀ (cs : List Char) (seg : List Char), seg ∈ splitSlash cs → '/' ∉ seg := by
  intro cs
  induction cs with
  | nil => intro seg h; simp [splitSlash] at h; simp [h]
  | cons c rest ih =>
    intro seg h
    rw [splitSlash] at h
    by_cases hc : c = '/'
    · simp only [hc, if_pos, List.mem_cons] at h
      rcases h with h | h
      · simp [h]
      · exact ih seg h
    · simp only [hc, if_false] at h
      cases hsp : splitSlash rest with
      | nil => exact absurd hsp (splitSlash_ne_nil rest)
      | cons s ss =>
        rw [hsp] at h
        simp only [List.mem_cons] at h
        rcases h with h | h
        · subst h
          intro hmem
          simp only [List.mem_cons] at hmem
          rcases hmem with h1 | h1
          · exact hc h1.symm
          · exact ih s (by simp [hsp]) h1
        · exact ih seg (by simp [hsp, h])

theorem splitSlash_no_slash :
    ∀ (cs : List Char), '/' ∉ cs → splitSlash cs = [cs] := by
  intro cs
  induction cs with
  | nil => intro _; rfl
  | cons c rest ih =>
    intro h
    have hc : ¬ c = '/' := fun hc => h (by simp [hc])
    have hrest : '/' ∉ rest := fun hr => h (by simp [hr])
    rw [splitSlash, if_neg hc, ih hrest]

theorem splitSlash_append_slash :
    ∀ (l rest : List Char), '/' ∉ l →
      splitSlash (l ++ '/' :: rest) = l :: splitSlash rest := by
  intro l
  induction l with
  | nil => intro rest _; simp [splitSlash]
  | cons c t ih =>
    intro rest h
    have hc : ¬ c = '/' := fun hc => h (by simp [hc])
    have ht : '/' ∉ t := fun hr => h (by simp [hr])
    rw [List.cons_append, splitSlash, if_neg hc, ih rest ht]

theorem splitSlash_joinSlash :
    ∀ (ls : List (List Char)), ls ≠ [] → (∀ l ∈ ls, '/' ∉ l) →
      splitSlash (joinSlash ls) = ls := by
  intro ls
  induction ls with
  | nil => intro h; exact absurd rfl h
  | cons l rest ih =>
    intro _ hall
    cases rest with
    | nil =>
      rw [joinSlash]
      exact splitSlash_no_slash l (hall l (by simp))
    | cons l2 rest2 =>
      rw [joinSlash, splitSlash_append_slash l _ (hall l (by simp))]
      rw [ih (List.cons_ne_nil _ _) (fun x hx => hall x (by simp [hx]))]

theorem joinSlash_eq_nil_iff :
    ∀ (ls : List (List Char)), joinSlash ls = [] ↔ ls = [] ∨ ls = [[]] := by
  intro ls
  cases ls with
  | nil => simp [joinSlash]
  | cons l rest =>
    cases rest with
    | nil => simp [joinSlash]
    | cons l2 rest2 => simp [joinSlash]

theorem stripChars_eq_dropWhile (cs : List Char) :
    stripChars cs =
      joinSlash (((splitSlash cs).filter (fun seg => !seg.isEmpty)).dropWhile isWrapper) := by
  have hcong : ((splitSlash cs).filter (fun seg => !seg.isEmpty)).dropWhile isWrapper
      = ((splitSlash cs).filter (fun seg => !seg.isEmpty)).dropWhile (fun a => !keepSeg a) := by
    apply dropWhile_congr_mem
    intro x hx
    have hne := (List.mem_filter.mp hx).2
    simp [keepSeg, hne]
  rw [hcong, ← firstIdx_drop keepSeg ((splitSlash cs).filter (fun seg => !seg.isEmpty))]
  simp only [stripChars]
  cases firstIdx? keepSeg ((splitSlash cs).filter (fun seg => !seg.isEmpty)) with
  | none => rfl
  | some i => rfl

theorem stripChars_idem (cs : List Char) : stripChars (stripChars cs) = stripChars cs := by
  rw [stripChars_eq_dropWhile cs]
  cases hrest : ((splitSlash cs).filter (fun seg => !seg.isEmpty)).dropWhile isWrapper with
  | nil => decide
  | cons h t =>
    have hmem : ∀ seg ∈ h :: t, seg ∈ (splitSlash cs).filter (fun seg => !seg.isEmpty) :=
      fun seg hseg => mem_of_mem_dropWhile (hrest ▸ hseg)
    have hne : ∀ seg ∈ h :: t, (!seg.isEmpty) = true :=
      fun seg hseg => (List.mem_filter.mp (hmem seg hseg)).2
    have hslash : ∀ seg ∈ h :: t, '/' ∉ seg :=
      fun seg hseg =>
        no_slash_of_mem_splitSlash cs seg (List.mem_of_mem_filter (hmem seg hseg))
    have hh : isWrapper h = false := dropWhile_head_false hrest
    rw [stripChars_eq_dropWhile,
      splitSlash_joinSlash (h :: t) (List.cons_ne_nil _ _) hslash,
      List.filter_eq_self.mpr hne, dropWhile_cons_of_neg t hh]

/-! ### The spec-side normalizer (written from the spec's words, for
comparison with the code's `strip_leading`) -/

/-- Spec 4.1: split into non-empty segments, drop the maximal prefix of
wrapper segments, join the remaining suffix. -/
def normalizeSpec (p : String) : String :=
  ⟨joinSlash (((splitSlash p.data).filter (fun seg => !seg.isEmpty)).dropWhile isWrapper)⟩

theorem getD_eq_headD_drop (l : List α) (n : Nat) (d : α) :
    l.getD n d = (l.drop n).headD d := by
  rw [List.getD_eq_getElem?_getD, List.headD_eq_head?_getD, List.head?_drop]

theorem contains_mem_iff (l : List String) (a : String) :
    l.contains a = true ↔ a ∈ l := by
  unfold List.contains
  exact List.elem_iff

theorem contains_congr_of_mem_iff {ks1 ks2 : List String}
    (h : ∀ k, k ∈ ks1 ↔ k ∈ ks2) (a : String) : ks1.contains a = ks2.contains a := by
  rw [Bool.eq_iff_iff, contains_mem_iff, contains_mem_iff]
  exact h a

/-! ### Claim theorems -/

/-- C2: `determine_status` is a total function whose result depends only on
the set of kinds present, applying the fixed precedence csv → ELABORATED,
else timeout → TIMEOUT, else error → ERROR, else NOT_ELABORATED; in
particular `{error, timeout}` resolves to TIMEOUT, `{csv, error, timeout}`
to ELABORATED, `{other}` and `{}` to NOT_ELABORATED. -/
theorem C2_determine_status_precedence :
    (∀ ks1 ks2 : List String, (∀ k, k ∈ ks1 ↔ k ∈ ks2) →
        determine_status ks1 = determine_status ks2)
    ∧ (∀ ks : List String,
        determine_status ks ∈ ["ELABORATED", "TIMEOUT", "ERROR", "NOT_ELABORATED"])
    ∧ (∀ ks : List String, "csv" ∈ ks → determine_status ks = "ELABORATED")
    ∧ (∀ ks : List String, "csv" ∉ ks → "timeout" ∈ ks →
        determine_status ks = "TIMEOUT")
    ∧ (∀ ks : List String, "csv" ∉ ks → "timeout" ∉ ks → "error" ∈ ks →
        determine_status ks = "ERROR")
    ∧ (∀ ks : List String, "csv" ∉ ks → "timeout" ∉ ks → "error" ∉ ks →
        determine_status ks = "NOT_ELABORATED")
    ∧ determine_status ["error", "timeout"] = "TIMEOUT"
    ∧ determine_status ["csv", "error", "timeout"] = "ELABORATED"
    ∧ determine_status ["other"] = "NOT_ELABORATED"
    ∧ determine_status [] = "NOT_ELABORATED" := by
  refine ⟨?_, ?_, ?_, ?_, ?_, ?_, by decide, by decide, by decide, by decide⟩
  · intro ks1 ks2 h
    unfold determine_status
    rw [contains_congr_of_mem_iff h "csv", contains_congr_of_mem_iff h "timeout",
      contains_congr_of_mem_iff h "error"]
  · intro ks
    unfold determine_status
    split
    · simp
    · split
      · simp
      · split <;> simp
  · intro ks h
    unfold determine_status
    rw [if_pos (contains_mem_iff _ _ |>.mpr h)]
  · intro ks h1 h2
    unfold determine_status
    rw [if_neg (by rw [contains_mem_iff]; exact h1), if_pos (contains_mem_iff _ _ |>.mpr h2)]
  · intro ks h1 h2 h3
    unfold determine_status
    rw [if_neg (by rw [contains_mem_iff]; exact h1),
      if_neg (by rw [contains_mem_iff]; exact h2), if_pos (contains_mem_iff _ _ |>.mpr h3)]
  · intro ks h1 h2 h3
    unfold determine_status
    rw [if_neg (by rw [contains_mem_iff]; exact h1),
      if_neg (by rw [contains_mem_iff]; exact h2),
      if_neg (by rw [contains_mem_iff]; exact h3)]

/-- Witness for C2 at a concrete input: `{other, timeout}` resolves to
TIMEOUT through the timeout precedence rule. -/
theorem C2_witness : determine_status ["other", "timeout"] = "TIMEOUT" :=
  C2_determine_status_precedence.2.2.2.1 ["other", "timeout"] (by decide) (by decide)

/-- C3: `strip_leading` splits a path into non-empty segments on the
separator and returns the suffix from the first segment whose lowercase
form is not in the wrapper set; the result is empty iff the path is empty
or every segment is a wrapper segment (so a fully-wrapped path normalizes
to `""` and matches only other fully-wrapped paths). -/
theorem C3_strip_leading_normalizes :
    (∀ p : String, strip_leading p = normalizeSpec p)
    ∧ strip_leading "" = ""
    ∧ (∀ p : String, strip_leading p = "" ↔
        ((splitSlash p.data).filter (fun seg => !seg.isEmpty)).all isWrapper) := by
  refine ⟨?_, by decide, ?_⟩
  · intro p
    exact congrArg String.mk (stripChars_eq_dropWhile p.data)
  · intro p
    have hbody : strip_leading p =
        (⟨joinSlash (((splitSlash p.data).filter (fun seg => !seg.isEmpty)).dropWhile
          isWrapper)⟩ : String) :=
      congrArg String.mk (stripChars_eq_dropWhile p.data)
    rw [hbody]
    constructor
    · intro h
      have hl : joinSlash (((splitSlash p.data).filter
          (fun seg => !seg.isEmpty)).dropWhile isWrapper) = [] := by
        have := congrArg String.data h
        simpa using this
      rcases (joinSlash_eq_nil_iff _).mp hl with h1 | h1
      · exact dropWhile_eq_nil_iff_all.mp h1
      · exfalso
        have hmem : ([] : List Char) ∈ ((splitSlash p.data).filter
            (fun seg => !seg.isEmpty)).dropWhile isWrapper := by
          rw [h1]; simp
        have hp := (List.mem_filter.mp (mem_of_mem_dropWhile hmem)).2
        simp at hp
    · intro h
      rw [dropWhile_eq_nil_iff_all.mpr h]
      rfl

/-- C6: path normalization is idempotent:
`strip_leading (strip_leading p) = strip_leading p` for every path. -/
theorem C6_strip_leading_idempotent :
    ∀ p : String, strip_leading (strip_leading p) = strip_leading p := by
  intro p
  exact congrArg String.mk (stripChars_idem p.data)

/-- C1: `find_matches_for_source` returns exactly the output records whose
wrapper-stripped directory equals the wrapper-stripped source directory and
whose basename equals the source basename, under exact case-sensitive
equality; in particular a source `w1/A/B/file.png` matches an output
`w2/A/B/file.csv` for any wrapper prefixes `w1`, `w2` from the fixed
set. -/
theorem C1_find_matches_exact :
    (∀ (src_rel src_basename : String) (outputs : List OutputRecord)
        (out : OutputRecord),
        out ∈ find_matches_for_source src_rel src_basename outputs ↔
          out ∈ outputs ∧
            strip_leading (dirname out.rel) = strip_leading (dirname src_rel) ∧
            out.basename = src_basename)
    ∧ (∀ w1 w2 : String, w1 ∈ SKIP_LEADING → w2 ∈ SKIP_LEADING →
        ∀ mt fu : String,
          mkOutputRecord fu (w2 ++ "/A/B/file.csv") "file.csv" mt ∈
            find_matches_for_source (w1 ++ "/A/B/file.png") "file"
              [mkOutputRecord fu (w2 ++ "/A/B/file.csv") "file.csv" mt]) := by
  have hchar : ∀ (src_rel src_basename : String) (outputs : List OutputRecord)
      (out : OutputRecord),
      out ∈ find_matches_for_source src_rel src_basename outputs ↔
        out ∈ outputs ∧
          strip_leading (dirname out.rel) = strip_leading (dirname src_rel) ∧
          out.basename = src_basename := by
    intro src_rel src_basename outputs out
    simp only [find_matches_for_source, List.mem_filter, Bool.and_eq_true, beq_iff_eq,
      and_assoc]
  refine ⟨hchar, ?_⟩
  have hw : ∀ w ∈ SKIP_LEADING,
      strip_leading (dirname (w ++ "/A/B/file.png")) = "A/B" ∧
      strip_leading (dirname (w ++ "/A/B/file.csv")) = "A/B" := by decide
  intro w1 w2 h1 h2 mt fu
  apply (hchar (w1 ++ "/A/B/file.png") "file" _ _).mpr
  refine ⟨by simp, ?_, rfl⟩
  have e1 : (mkOutputRecord fu (w2 ++ "/A/B/file.csv") "file.csv" mt).rel =
      w2 ++ "/A/B/file.csv" := rfl
  rw [e1, (hw w2 h2).2, (hw w1 h1).1]

/-- Witness for C1 at a concrete input: a source under the `ftp` wrapper
matches the corresponding output under the `data` wrapper. -/
theorem C1_witness :
    mkOutputRecord "/o/f" "data/A/B/file.csv" "file.csv" "t" ∈
      find_matches_for_source "ftp/A/B/file.png" "file"
        [mkOutputRecord "/o/f" "data/A/B/file.csv" "file.csv" "t"] :=
  C1_find_matches_exact.2 "ftp" "data" (by decide) (by decide) "t" "/o/f"

/-- C10: wrapper detection lowercases segments (a leading `FTP` or `Output`
is stripped like `ftp` or `output`), but after stripping the directory
comparison is exact and case-sensitive: a source whose normalized directory
is `A/B` never matches an output whose normalized directory is `a/b`. -/
theorem C10_case_sensitive_matching :
    strip_leading "FTP/A/B" = "A/B"
    ∧ strip_leading "Output/A/B" = "A/B"
    ∧ strip_leading "ftp/A/B" = "A/B"
    ∧ strip_leading "A/B" = "A/B"
    ∧ strip_leading "a/b" = "a/b"
    ∧ (∀ (src_rel src_basename : String) (outputs : List OutputRecord)
        (out : OutputRecord),
        strip_leading (dirname src_rel) = "A/B" →
        strip_leading (dirname out.rel) = "a/b" →
        out ∉ find_matches_for_source src_rel src_basename outputs) := by
  refine ⟨by decide, by decide, by decide, by decide, by decide, ?_⟩
  intro src_rel src_basename outputs out hsrc hout hmem
  have hpred := (List.mem_filter.mp hmem).2
  rw [Bool.and_eq_true, beq_iff_eq] at hpred
  rw [hout, hsrc] at hpred
  exact absurd hpred.1 (by decide)

/-- Witness for C10 at a concrete input: an output under `a/b` is not
matched by a source under `A/B`. -/
theorem C10_witness :
    mkOutputRecord "/o" "a/b/file.csv" "file.csv" "" ∉
      find_matches_for_source "A/B/file.png" "file"
        [mkOutputRecord "/o" "a/b/file.csv" "file.csv" ""] :=
  C10_case_sensitive_matching.2.2.2.2.2 "A/B/file.png" "file"
    [mkOutputRecord "/o" "a/b/file.csv" "file.csv" ""]
    (mkOutputRecord "/o" "a/b/file.csv" "file.csv" "") (by decide) (by decide)

/-- The kind classification as a pure function of the raw extension,
compared case-insensitively (written from the spec's words, for comparison
with the classification inside `scan_outputs`). -/
def kindOfExt (ext : String) : String :=
  if lowerStr ext = ".csv" then "csv"
  else if lowerStr ext = ".timeout" then "timeout"
  else if lowerStr ext = ".error" then "error"
  else "other"

/-- C8: the kind of an indexed output record is determined solely by its
extension, case-insensitively: `.csv` gives csv, `.timeout` gives timeout,
`.error` gives error, anything else (including no extension) gives
other. -/
theorem C8_kind_from_extension :
    (∀ full rel fname mtime : String,
        (mkOutputRecord full rel fname mtime).kind =
          kindOfExt (splitext (basename fname)).2)
    ∧ (∀ f1 r1 n1 m1 f2 r2 n2 m2 : String,
        lowerStr (splitext (basename n1)).2 = lowerStr (splitext (basename n2)).2 →
        (mkOutputRecord f1 r1 n1 m1).kind = (mkOutputRecord f2 r2 n2 m2).kind)
    ∧ (mkOutputRecord "/o" "r" "x.CSV" "").kind = "csv"
    ∧ (mkOutputRecord "/o" "r" "x.TimeOut" "").kind = "timeout"
    ∧ (mkOutputRecord "/o" "r" "x.Error" "").kind = "error"
    ∧ (mkOutputRecord "/o" "r" "x.png" "").kind = "other"
    ∧ (mkOutputRecord "/o" "r" "x" "").kind = "other" := by
  have hk : ∀ full rel fname mtime : String,
      (mkOutputRecord full rel fname mtime).kind =
        kindOfExt (splitext (basename fname)).2 := by
    intro full rel fname mtime
    rfl
  refine ⟨hk, ?_, by decide, by decide, by decide, by decide, by decide⟩
  intro f1 r1 n1 m1 f2 r2 n2 m2 h
  rw [hk, hk]
  unfold kindOfExt
  rw [h]

/-- Witness for C8 at a concrete input: two records whose filenames differ
but whose extensions agree up to case get the same kind. -/
theorem C8_witness :
    (mkOutputRecord "/o1" "r1" "a.CSV" "m1").kind =
      (mkOutputRecord "/o2" "r2" "b.csv" "m2").kind :=
  C8_kind_from_extension.2.1 "/o1" "r1" "a.CSV" "m1" "/o2" "r2" "b.csv" "m2" (by decide)

/-- C7: when the modification-time read fails during output indexing, the
failure is recovered locally: the record is still indexed with modification
time `''` and every other field intact, it stays eligible for matching, and
the indexing run maps every walked file to a record. -/
theorem C7_mtime_failure_recovered :
    ∀ (walked : List WalkedFile) (w : WalkedFile),
      w ∈ walked → w.mtimeResult = none →
      mkOutputRecord w.full w.rel w.fname "" ∈ scan_outputs walked ∧
      (mkOutputRecord w.full w.rel w.fname "").mtime = "" ∧
      (∀ mt : String,
        (mkOutputRecord w.full w.rel w.fname "").full =
          (mkOutputRecord w.full w.rel w.fname mt).full ∧
        (mkOutputRecord w.full w.rel w.fname "").rel =
          (mkOutputRecord w.full w.rel w.fname mt).rel ∧
        (mkOutputRecord w.full w.rel w.fname "").basename =
          (mkOutputRecord w.full w.rel w.fname mt).basename ∧
        (mkOutputRecord w.full w.rel w.fname "").ext =
          (mkOutputRecord w.full w.rel w.fname mt).ext ∧
        (mkOutputRecord w.full w.rel w.fname "").kind =
          (mkOutputRecord w.full w.rel w.fname mt).kind) ∧
      (scan_outputs walked).length = walked.length ∧
      (∀ src_rel : String,
        strip_leading (dirname src_rel) = strip_leading (dirname w.rel) →
        mkOutputRecord w.full w.rel w.fname "" ∈
          find_matches_for_source src_rel
            (mkOutputRecord w.full w.rel w.fname "").basename
            (scan_outputs walked)) := by
  intro walked w hmem hmt
  have hrec : mkOutputRecord w.full w.rel w.fname "" ∈ scan_outputs walked := by
    have : mkOutputRecord w.full w.rel w.fname (iso_mtime w.mtimeResult) ∈
        scan_outputs walked := List.mem_map_of_mem _ hmem
    rw [hmt] at this
    exact this
  refine ⟨hrec, rfl, fun mt => ⟨rfl, rfl, rfl, rfl, rfl⟩, List.length_map _ _, ?_⟩
  intro src_rel hdir
  apply List.mem_filter.mpr
  refine ⟨hrec, ?_⟩
  rw [Bool.and_eq_true, beq_iff_eq, beq_iff_eq]
  exact ⟨hdir.symm, rfl⟩

/-- Witness for C7 at a concrete input: a walked file whose timestamp read
raised is still indexed, with empty modification time. -/
theorem C7_witness :
    mkOutputRecord "/out/a/b.csv" "a/b.csv" "b.csv" "" ∈
      scan_outputs [⟨"/out/a/b.csv", "a/b.csv", "b.csv", none⟩] :=
  (C7_mtime_failure_recovered [⟨"/out/a/b.csv", "a/b.csv", "b.csv", none⟩]
    ⟨"/out/a/b.csv", "a/b.csv", "b.csv", none⟩ (by decide) rfl).1

/-- The category/container pair described from the suffix side: drop the
leading empty-or-wrapper segments of the full relative path (filename
included); category and container are the first two segments of the
remaining suffix, and when no segment qualifies they fall back to the first
two segments of the whole path. -/
def catContSpec (rel : String) : String × String :=
  let parts := splitSlash rel.data
  match parts.dropWhile (fun seg => !keepSeg seg) with
  | [] => ((⟨parts.getD 0 []⟩ : String), (⟨parts.getD 1 []⟩ : String))
  | h :: t => ((⟨h⟩ : String), (⟨t.headD []⟩ : String))

theorem categoryIdx_spec (parts : List (List Char)) :
    parts.getD (categoryIdx parts) [] =
      (match parts.dropWhile (fun seg => !keepSeg seg) with
       | [] => parts.getD 0 []
       | h :: _ => h) ∧
    parts.getD (categoryIdx parts + 1) [] =
      (match parts.dropWhile (fun seg => !keepSeg seg) with
       | [] => parts.getD 1 []
       | _ :: t => t.headD []) := by
  unfold categoryIdx
  cases hfi : firstIdx? keepSeg parts with
  | none =>
    have hd : parts.dropWhile (fun seg => !keepSeg seg) = [] := by
      have h := firstIdx_drop keepSeg parts
      rw [hfi] at h
      exact h.symm
    rw [hd]
    exact ⟨rfl, rfl⟩
  | some i =>
    have hd : parts.dropWhile (fun seg => !keepSeg seg) = parts.drop i := by
      have h := firstIdx_drop keepSeg parts
      rw [hfi] at h
      exact h.symm
    obtain ⟨x, xs, hx, hpx⟩ := firstIdx_some keepSeg parts i hfi
    rw [hd, hx]
    constructor
    · rw [getD_eq_headD_drop, hx]
      rfl
    · rw [getD_eq_headD_drop]
      have hdrop : parts.drop (i + 1) = xs := by
        rw [← List.drop_drop, hx]
        rfl
      rw [hdrop]

/-- C4 counterexample: for a source file at the top of the source tree
(relative path `file.png`, relative directory `""`) the assembled row has
`category = "file.png"` — the filename segment — not the empty string that
the claim requires when the stripped relative directory has no first
segment. -/
theorem C4_counterexample :
    dirname "file.png" = "" ∧
    strip_leading (dirname "file.png") = "" ∧
    (build_row ⟨"/data/file.png", "file.png", "file.png"⟩ []).category = "file.png" ∧
    (build_row ⟨"/data/file.png", "file.png", "file.png"⟩ []).category ≠ "" := by
  refine ⟨by decide, by decide, by decide, by decide⟩

/-- C4 (amended): category and book_container are derived from the source's
full relative path (filename segment included), not from its directory:
category is the segment at the first index whose segment is non-empty and
not a wrapper (lowercased), the index defaulting to 0 — the path's first
segment — when no segment qualifies; book_container is the segment at the
following index; each is empty only when its index is out of range. -/
theorem C4_category_from_full_path :
    ∀ (s : SourceFile) (outputs : List OutputRecord),
      (build_row s outputs).category = (catContSpec s.rel).1 ∧
      (build_row s outputs).book_container = (catContSpec s.rel).2 := by
  intro s outputs
  have h := categoryIdx_spec (splitSlash s.rel.data)
  simp only [build_row, catContSpec]
  cases hdw : (splitSlash s.rel.data).dropWhile (fun seg => !keepSeg seg) with
  | nil =>
    rw [hdw] at h
    exact ⟨congrArg String.mk h.1, congrArg String.mk h.2⟩
  | cons hseg t =>
    rw [hdw] at h
    exact ⟨congrArg String.mk h.1, congrArg String.mk h.2⟩

/-- C5: the number of report rows equals the number of source files passing
the extension filter (comparing the lowercased extension against the filter
set), equals the `total_sources` counter, and equals the number of all
source files when include-all is set — no file dropped or duplicated. -/
theorem C5_row_count :
    ∀ (sources : List SourceFile) (outputs : List OutputRecord)
      (exts : List String) (include_all sort_rows : Bool),
      (generate_report_rows sources outputs exts include_all sort_rows).length =
        (sources.filter (fun s =>
          include_all || exts.contains (lowerStr (splitext s.fname).2))).length ∧
      (generate_report_rows sources outputs exts true sort_rows).length =
        sources.length ∧
      (generate_report_rows sources outputs exts include_all sort_rows).length =
        total_sources sources exts include_all := by
  intro sources outputs exts include_all sort_rows
  have hlen : ∀ ia : Bool,
      (generate_report_rows sources outputs exts ia sort_rows).length =
        (sources.filter (fun s => passesFilter s.fname exts ia)).length := by
    intro ia
    simp only [generate_report_rows]
    by_cases hs : sort_rows = true
    · rw [if_pos hs, List.length_mergeSort, List.length_map]
    · rw [Bool.not_eq_true] at hs
      rw [hs]
      simp only [Bool.false_eq_true, if_false, List.length_map]
  refine ⟨hlen include_all, ?_, hlen include_all⟩
  rw [hlen true]
  simp [passesFilter]

/-- C9: every report row with a status other than NOT_ELABORATED has
`has_output = true` and at least one matched output; the converse fails: a
source matched only by an output of kind `other` gets `has_output = true`
with status NOT_ELABORATED. -/
theorem C9_status_implies_output :
    (∀ (sources : List SourceFile) (outputs : List OutputRecord)
        (exts : List String) (include_all sort_rows : Bool) (row : ReportRow),
        row ∈ generate_report_rows sources outputs exts include_all sort_rows →
        row.status ≠ "NOT_ELABORATED" →
        row.has_output = true ∧ 1 ≤ row.num_outputs)
    ∧ (∃ row : ReportRow,
        row ∈ generate_report_rows [⟨"/d/a/x.png", "a/x.png", "x.png"⟩]
          [mkOutputRecord "/o/a/x.log" "a/x.log" "x.log" "t"] [".png"] false false ∧
        row.has_output = true ∧ row.status = "NOT_ELABORATED") := by
  constructor
  · have key : ∀ (outputs : List OutputRecord) (s : SourceFile),
        (build_row s outputs).status ≠ "NOT_ELABORATED" →
        (build_row s outputs).has_output = true ∧
          1 ≤ (build_row s outputs).num_outputs := by
      intro outputs s hstat
      simp only [build_row] at hstat ⊢
      cases hms : find_matches_for_source s.rel (splitext (basename s.fname)).1 outputs with
      | nil =>
        rw [hms] at hstat
        simp [determine_status] at hstat
      | cons m rest =>
        simp
    intro sources outputs exts include_all sort_rows row hmem hstat
    have hmem' : row ∈ (sources.filter
        (fun s => passesFilter s.fname exts include_all)).map
        (fun s => build_row s outputs) := by
      simp only [generate_report_rows] at hmem
      by_cases hs : sort_rows = true
      · rw [if_pos hs] at hmem
        exact List.mem_mergeSort.mp hmem
      · rw [Bool.not_eq_true] at hs
        rw [hs] at hmem
        simpa using hmem
    obtain ⟨s, hsmem, heq⟩ := List.mem_map.mp hmem'
    subst heq
    exact key outputs s hstat
  · refine ⟨build_row ⟨"/d/a/x.png", "a/x.png", "x.png"⟩
      [mkOutputRecord "/o/a/x.log" "a/x.log" "x.log" "t"], by decide, by decide, by decide⟩

/-- Witness for C9 at a concrete input: a row whose only match is a `.csv`
output has ELABORATED status, so it has an output and a positive match
count. -/
theorem C9_witness :
    (build_row ⟨"/d/a/x.png", "a/x.png", "x.png"⟩
      [mkOutputRecord "/o/a/x.csv" "a/x.csv" "x.csv" "t"]).has_output = true ∧
    1 ≤ (build_row ⟨"/d/a/x.png", "a/x.png", "x.png"⟩
      [mkOutputRecord "/o/a/x.csv" "a/x.csv" "x.csv" "t"]).num_outputs :=
  C9_status_implies_output.1 [⟨"/d/a/x.png", "a/x.png", "x.png"⟩]
    [mkOutputRecord "/o/a/x.csv" "a/x.csv" "x.csv" "t"] [".png"] false false
    (build_row ⟨"/d/a/x.png", "a/x.png", "x.png"⟩
      [mkOutputRecord "/o/a/x.csv" "a/x.csv" "x.csv" "t"]) (by decide) (by decide)

end ElabReport
